import Mathlib

/-!
Verification of the geospatial conversion service in `sig-reseau-paris`.

Each section embeds one service of `saas/backend/app` as executable Lean
definitions translated from the Python source, and proves the properties
claimed of it. Python floats on
the decision paths are modelled as exact rationals, pandas/geopandas dataframes as
lists, and raised exceptions as `Except`/`Option` results.
Machine integers are modelled as unbounded `Nat`/`Int` (no Python int overflow exists).
-/

set_option maxRecDepth 8000

namespace SigReseau

/-! ## Geometry cleaner (`services/geometry_cleaner.py`)

`GeometryCleaner.clean` works on a GeoDataFrame whose rows carry an
optional geometry. Only the geometry column matters to the returned
statistics, so a dataset is a `List (Option G)`. The Shapely operations
the code calls (`is_valid`, `is_empty`, `make_valid`, geometry equality
used by `drop_duplicates`) are abstracted into `GeomOps`; `make_valid`
returns `none` when it raises.
-/

structure GeomOps (G : Type) where
  isValid : G → Bool
  isEmpty : G → Bool
  makeValid : G → Option G
  geomEq : G → G → Bool

structure CleanStats where
  total_input : Nat
  null_geometry : Nat
  invalid_before : Nat
  fixed : Int
  unfixable : Nat
  empty_after_fix : Nat
  duplicates_removed : Nat
  total_output : Nat
deriving Repr, DecidableEq

variable {G : Type}

/-- `fix_geometry` inside `GeometryCleaner.clean` (geometry_cleaner.py lines 65-74):
`None`/empty input gives `None`, valid input is kept, otherwise `make_valid`
is attempted and an empty or failing repair gives `None`. -/
def fixGeometry (ops : GeomOps G) : Option G → Option G
  | none => none
  | some g =>
    if ops.isEmpty g then none
    else if ops.isValid g then some g
    else
      match ops.makeValid g with
      | none => none
      | some f => if ops.isEmpty f then none else some f

/-- `drop_duplicates(subset=["geometry"])`: keep the first row carrying each
geometry value; `seen` accumulates geometries already kept. -/
def dedupFirst (ops : GeomOps G) : List G → List G → List G
  | _, [] => []
  | seen, g :: rest =>
    if seen.any (fun s => ops.geomEq s g) then dedupFirst ops seen rest
    else g :: dedupFirst ops (g :: seen) rest

/-- The empty-after-fix mask of step 4: `gdf.geometry.isna() | gdf.geometry.apply(is_empty)`. -/
def emptyMask (ops : GeomOps G) : Option G → Bool
  | none => true
  | some g => ops.isEmpty g

/-- Step 4 row filter: keep the rows whose repaired geometry is neither null
nor empty (`gdf = gdf[~empty_mask]`). -/
def dropEmpty (ops : GeomOps G) (l : List (Option G)) : List G :=
  l.filterMap (fun o =>
    match o with
    | none => none
    | some g => if ops.isEmpty g then none else some g)

/-- Steps 2-5 of `GeometryCleaner.clean`, run on the rows that survive the
null-geometry drop (the `gdf.empty` early return has already been taken). -/
def cleanNonempty (ops : GeomOps G) (totalInput nullCount : Nat) (g1 : List G) :
    List G × CleanStats :=
  let invalidBefore := (g1.filter (fun g => ! ops.isValid g)).length
  let g2 : List (Option G) := g1.map (fun g => fixGeometry ops (some g))
  let emptyAfter := (g2.filter (fun o => emptyMask ops o)).length
  let g3 : List G := dropEmpty ops g2
  let g4 := dedupFirst ops [] g3
  (g4, { total_input := totalInput, null_geometry := nullCount,
         invalid_before := invalidBefore,
         fixed := (invalidBefore : Int) - (emptyAfter : Int),
         unfixable := emptyAfter, empty_after_fix := emptyAfter,
         duplicates_removed := g3.length - g4.length,
         total_output := g4.length })

/-- `GeometryCleaner.clean` (geometry_cleaner.py lines 26-94): drop null
geometries, count invalid ones, repair all remaining geometries with
`fix_geometry`, drop empty repairs, deduplicate on geometry, and return the
cleaned rows together with the statistics dictionary. -/
def clean (ops : GeomOps G) (rows : List (Option G)) : List G × CleanStats :=
  let totalInput := rows.length
  let nullCount := (rows.filter (fun r => r.isNone)).length
  let g1 : List G := rows.filterMap id
  if g1.isEmpty then
    ([], { total_input := totalInput, null_geometry := nullCount, invalid_before := 0,
           fixed := 0, unfixable := 0, empty_after_fix := 0, duplicates_removed := 0,
           total_output := 0 })
  else
    cleanNonempty ops totalInput nullCount g1

lemma length_filter_isNone_add_filterMap_id (rows : List (Option G)) :
    (rows.filter (fun r => r.isNone)).length + (rows.filterMap id).length = rows.length := by
  induction rows with
  | nil => rfl
  | cons r rest ih =>
    cases r with
    | none =>
      have e1 : ((none :: rest).filter (fun r : Option G => r.isNone)) =
          none :: rest.filter (fun r => r.isNone) := rfl
      have e2 : ((none :: rest).filterMap (id : Option G → Option G)) =
          rest.filterMap id := rfl
      rw [e1, e2]
      simp only [List.length_cons]
      omega
    | some g =>
      have e1 : ((some g :: rest).filter (fun r : Option G => r.isNone)) =
          rest.filter (fun r => r.isNone) := rfl
      have e2 : ((some g :: rest).filterMap (id : Option G → Option G)) =
          g :: rest.filterMap id := rfl
      rw [e1, e2]
      simp only [List.length_cons]
      omega

lemma length_filter_emptyMask_add_dropEmpty (ops : GeomOps G) (l : List (Option G)) :
    (l.filter (fun o => emptyMask ops o)).length + (dropEmpty ops l).length = l.length := by
  induction l with
  | nil => rfl
  | cons o rest ih =>
    cases o with
    | none =>
      have e1 : ((none :: rest).filter (fun o => emptyMask ops o)) =
          none :: rest.filter (fun o => emptyMask ops o) := rfl
      have e2 : dropEmpty ops (none :: rest) = dropEmpty ops rest := rfl
      rw [e1, e2]
      simp only [List.length_cons]
      omega
    | some g =>
      by_cases hg : ops.isEmpty g = true
      · have e1 : ((some g :: rest).filter (fun o => emptyMask ops o)) =
            some g :: rest.filter (fun o => emptyMask ops o) := by
          rw [List.filter_cons, if_pos]
          exact hg
        have e2 : dropEmpty ops (some g :: rest) = dropEmpty ops rest := by
          unfold dropEmpty
          rw [List.filterMap_cons]
          simp only [hg, if_true]
        rw [e1, e2]
        simp only [List.length_cons]
        omega
      · have e1 : ((some g :: rest).filter (fun o => emptyMask ops o)) =
            rest.filter (fun o => emptyMask ops o) := by
          rw [List.filter_cons, if_neg]
          simpa [emptyMask] using hg
        have e2 : dropEmpty ops (some g :: rest) = g :: dropEmpty ops rest := by
          unfold dropEmpty
          rw [List.filterMap_cons]
          simp only [hg, Bool.false_eq_true, if_false]
        rw [e1, e2]
        simp only [List.length_cons]
        omega

lemma dedupFirst_length_le (ops : GeomOps G) (seen l : List G) :
    (dedupFirst ops seen l).length ≤ l.length := by
  induction l generalizing seen with
  | nil => simp [dedupFirst]
  | cons g rest ih =>
    by_cases h : seen.any (fun s => ops.geomEq s g) = true
    · calc (dedupFirst ops seen (g :: rest)).length
          = (dedupFirst ops seen rest).length := by simp [dedupFirst, h]
        _ ≤ rest.length := ih seen
        _ ≤ (g :: rest).length := by simp
    · calc (dedupFirst ops seen (g :: rest)).length
          = (dedupFirst ops (g :: seen) rest).length + 1 := by simp [dedupFirst, h]
        _ ≤ rest.length + 1 := by exact Nat.add_le_add_right (ih (g :: seen)) 1
        _ = (g :: rest).length := by simp

/-- **C1.** For every input dataset and every interpretation of the Shapely
primitives, the statistics returned by `GeometryCleaner.clean` satisfy the
conservation equation
`duplicates_removed + null_geometry + unfixable + total_output = total_input`,
including when the dataset is empty or becomes empty after dropping null
geometries. -/
theorem geometry_cleaner_conservation (ops : GeomOps G) (rows : List (Option G)) :
    (clean ops rows).2.duplicates_removed + (clean ops rows).2.null_geometry +
      (clean ops rows).2.unfixable + (clean ops rows).2.total_output =
      (clean ops rows).2.total_input := by
  have hnull := length_filter_isNone_add_filterMap_id (G := G) rows
  by_cases h1 : (rows.filterMap id).isEmpty = true
  · rw [List.isEmpty_iff] at h1
    rw [h1, List.length_nil] at hnull
    simp only [clean, h1, List.isEmpty_nil, if_true]
    omega
  · set g1 : List G := rows.filterMap id with hg1
    set g2 : List (Option G) := g1.map (fun g => fixGeometry ops (some g)) with hg2
    set g3 : List G := dropEmpty ops g2 with hg3
    set g4 := dedupFirst ops [] g3 with hg4
    have hcl : clean ops rows = cleanNonempty ops rows.length
        (rows.filter (fun r => r.isNone)).length g1 := by
      simp only [clean, h1, Bool.false_eq_true, if_false]
    have hempty : (g2.filter (fun o => emptyMask ops o)).length + g3.length = g2.length :=
      length_filter_emptyMask_add_dropEmpty ops g2
    have hlen2 : g2.length = g1.length := by
      rw [hg2, List.length_map]
    have hdedup : g4.length ≤ g3.length := dedupFirst_length_le ops [] g3
    rw [hcl]
    show (g3.length - g4.length) + (rows.filter (fun r => r.isNone)).length +
        (g2.filter (fun o => emptyMask ops o)).length + g4.length = rows.length
    omega

/-- A single concrete geometry kind standing for the empty polygon
`Polygon()`: in Shapely it is **valid** (`is_valid` is true), **empty**
(`is_empty` is true), and `make_valid` returns it unchanged. -/
inductive EmptyishGeom
  | emptyPolygon
deriving Repr, DecidableEq

def emptyishOps : GeomOps EmptyishGeom :=
  { isValid := fun _ => true,
    isEmpty := fun _ => true,
    makeValid := fun g => some g,
    geomEq := fun a b => a = b }

/-- **C9.** `GeometryCleaner.clean` applies `fix_geometry` to every remaining
geometry, not only the invalid ones, so a dataset holding a single geometry
that is valid but empty (and no invalid geometry at all) is nulled by the
repair step and counted in `unfixable`: the returned statistics have
`unfixable > invalid_before` and `fixed = invalid_before − unfixable = −1 < 0`. -/
theorem geometry_cleaner_counts_valid_empty_as_unfixable :
    (clean emptyishOps [some EmptyishGeom.emptyPolygon]).2.invalid_before = 0 ∧
    (clean emptyishOps [some EmptyishGeom.emptyPolygon]).2.unfixable = 1 ∧
    (clean emptyishOps [some EmptyishGeom.emptyPolygon]).2.invalid_before <
      (clean emptyishOps [some EmptyishGeom.emptyPolygon]).2.unfixable ∧
    (clean emptyishOps [some EmptyishGeom.emptyPolygon]).2.fixed = -1 ∧
    (clean emptyishOps [some EmptyishGeom.emptyPolygon]).2.fixed < 0 := by
  refine ⟨rfl, rfl, ?_, rfl, ?_⟩ <;> decide

/-! ## Attribute normalizer (`services/attribute_normalizer.py`)

Only the column names matter to the claims, so a dataset is its list of
column labels (the geometry column appears as the literal label
`"geometry"`). `unicodedata.normalize("NFKD", ·)` is modelled by an
arbitrary per-character decomposition `nfkd : Char → List Char`; the
subsequent `.encode("ascii", "ignore")` keeps exactly the code points
below 128.
-/

/-- Python `str.lower` on the ASCII text reaching it (`name.lower()`):
`Char.toLower` maps `A`-`Z` to `a`-`z` and keeps every other character. -/
def pyLowerChar (c : Char) : Char := c.toLower

def pyLowerStr (s : String) : String := ⟨s.data.map pyLowerChar⟩

/-- Python `str.strip()` whitespace, restricted to the ASCII characters that
can remain after the `ascii`-encode step. -/
def isPyWs (c : Char) : Bool :=
  c = ' ' || c = '\t' || c = '\n' || c = '\x0d' || c = '\x0b' || c = '\x0c'

def stripEnds (p : Char → Bool) (l : List Char) : List Char :=
  ((l.dropWhile p).reverse.dropWhile p).reverse

/-- The character class of the regex `[^a-zA-Z0-9_]` whose complement is
replaced by `_` in `_clean_column_name`. -/
def isWordChar (c : Char) : Bool := c.isAlpha || c.isDigit || c = '_'

/-- `re.sub(r"[^a-zA-Z0-9_]", "_", ·)` applied per character. -/
def subNonWord (c : Char) : Char := if isWordChar c then c else '_'

/-- `re.sub(r"_+", "_", ·)`: collapse each maximal run of underscores to a
single one. The flag records whether the previous character was `_`. -/
def collapseUnders : Bool → List Char → List Char
  | _, [] => []
  | prevU, c :: rest =>
    if c = '_' then
      if prevU then collapseUnders true rest
      else '_' :: collapseUnders true rest
    else c :: collapseUnders false rest

/-- The sanitizing character pipeline of `_clean_column_name`: NFKD-decompose
and strip to ASCII (`unicodedata.normalize("NFKD", name).encode("ascii",
"ignore")`), lowercase and strip whitespace (`name.lower().strip()`), replace
non-word characters by `_`, collapse underscore runs and strip underscores
from both ends. -/
def cleanCore (nfkd : Char → List Char) (name : String) : List Char :=
  let s1 : List Char := (name.data.flatMap nfkd).filter (fun c => c.toNat < 128)
  let s2 : List Char := stripEnds isPyWs (s1.map pyLowerChar)
  let s3 : List Char := s2.map subNonWord
  stripEnds (fun c => c = '_') (collapseUnders false s3)

/-- The tail of `_clean_column_name`: prefix `col_` before a leading digit,
truncate to 10 characters for the shapefile driver, and fall back to `"col"`
when nothing remains. -/
def cleanFinish (targetFormat : String) (s4 : List Char) : String :=
  let s5 : List Char :=
    match s4 with
    | [] => []
    | c :: rest => if c.isDigit then "col_".data ++ (c :: rest) else c :: rest
  let s6 : List Char := if targetFormat = "ESRI Shapefile" then s5.take 10 else s5
  if s6.isEmpty then "col" else ⟨s6⟩

/-- `AttributeNormalizer._clean_column_name` (attribute_normalizer.py lines
104-117). -/
def cleanColumnName (nfkd : Char → List Char) (targetFormat : String) (name : String) : String :=
  cleanFinish targetFormat (cleanCore nfkd name)

/-- Decimal digits of a natural number, as Python renders an `int` inside an
f-string (`f"{new}_{seen[new]}"`). -/
def decDigit (n : Nat) : Char := Char.ofNat (48 + n % 10)

def decReprAux : Nat → Nat → List Char
  | 0, _ => []
  | f + 1, n =>
    if n < 10 then [decDigit n]
    else decReprAux f (n / 10) ++ [decDigit (n % 10)]

def decRepr (n : Nat) : List Char := decReprAux (n + 1) n

/-- Phase 1 of `AttributeNormalizer.normalize` (lines 42-48): the rename map
holds every non-geometry column whose cleaned name differs from the
original, in column order (Python dict insertion order). -/
def renamePairs (nfkd : Char → List Char) (targetFormat : String)
    (cols : List String) : List (String × String) :=
  cols.filterMap (fun col =>
    if col = "geometry" then none
    else
      let cl := cleanColumnName nfkd targetFormat col
      if cl = col then none else some (col, cl))

/-- Lookup in an association list keyed by strings (a Python `dict`). -/
def lookupStr {α : Type} : List (String × α) → String → Option α
  | [], _ => none
  | (k, v) :: rest, key => if k = key then some v else lookupStr rest key

/-- The `seen` counter dictionary of the collision-resolution loop. -/
def bumpSeen (seen : List (String × Nat)) (key : String) (v : Nat) :
    List (String × Nat) :=
  seen.map (fun p => if p.1 = key then (p.1, v) else p)

/-- Phase 1 collision resolution (lines 50-59): walking the rename map in
order, a target name already seen gets `_1`, `_2`, ... appended (the counter
is incremented before use, exactly as `seen[new] += 1` then
`f"{new}_{seen[new]}"`). -/
def dedupRenames (seen : List (String × Nat)) :
    List (String × String) → List (String × String)
  | [] => []
  | (old, new) :: rest =>
    match lookupStr seen new with
    | some k =>
      (old, new ++ "_" ++ (⟨decRepr (k + 1)⟩ : String)) ::
        dedupRenames (bumpSeen seen new (k + 1)) rest
    | none => (old, new) :: dedupRenames ((new, 0) :: seen) rest

/-- `gdf.rename(columns=final_rename)`: every column label found in the map
is replaced by its target. -/
def applyRename (finalRename : List (String × String)) (cols : List String) :
    List String :=
  cols.map (fun col =>
    match lookupStr finalRename col with
    | some n => n
    | none => col)

/-- `AttributeNormalizer.GHOST_COLUMNS` (line 24). -/
def ghostColumns : List String := ["fid", "objectid", "shape_area", "shape_length", "shape_leng"]

/-- Phase 2 (lines 66-73): drop the columns whose lowercased name is a ghost
column, keeping `"geometry"`. -/
def dropGhosts (cols : List String) : List String :=
  cols.filter (fun c => ! (ghostColumns.contains (pyLowerStr c) && c ≠ "geometry"))

/-- The column labels the dataframe carries after phases 1-2 of
`AttributeNormalizer.normalize` (lines 41-73): the rename with collision
resolution followed by the ghost-column drop. Phases 3-5 change values and
dtypes but never column labels, so when `normalize` returns these are also
the final labels; whether it returns at all is decided by `normalizeLabels`
below. -/
def normalizeColumns (nfkd : Char → List Char) (targetFormat : String)
    (cols : List String) : List String :=
  dropGhosts (applyRename (dedupRenames [] (renamePairs nfkd targetFormat cols)) cols)

/-- The uncaught exception of `AttributeNormalizer.normalize`: with a
duplicated column label, `gdf[col]` is a DataFrame and
`_try_convert_type`'s first statement `series.dtype` (line 120) raises
`AttributeError` (a DataFrame has `.dtypes`, not `.dtype`), outside every
`try` block. -/
inductive NormalizeError
  | attributeError
deriving DecidableEq, Repr

/-- `AttributeNormalizer.normalize` (lines 26-102) at the level of column
labels, error path included. Phase 3 iterates the post-drop columns,
skipping the literal label `"geometry"` (line 77), and evaluates
`gdf[col].dtype` for every other label; it therefore raises
`AttributeError` as soon as a non-geometry label occurs twice — so only
duplicates of the `"geometry"` label itself (skipped again by phases 4 and
5, lines 86 and 94) survive to a completed run. -/
def normalizeLabels (nfkd : Char → List Char) (targetFormat : String)
    (cols : List String) : Except NormalizeError (List String) :=
  let out := normalizeColumns nfkd targetFormat cols
  if (out.filter (fun c => c ≠ "geometry")).Nodup then Except.ok out
  else Except.error NormalizeError.attributeError

/-- The spec's regex `^[a-z_][a-z0-9_]*$` as a predicate on strings. -/
def isLowerAZ (c : Char) : Bool := 'a' ≤ c && c ≤ 'z'

/-- Character class `[a-z0-9_]` of the regex body. -/
def tailOk (c : Char) : Bool := isLowerAZ c || c.isDigit || c = '_'

def matchesSnakeCase (s : String) : Bool :=
  match s.data with
  | [] => false
  | c :: rest => (isLowerAZ c || c = '_') && rest.all tailOk

lemma dropWhile_head_false {p : Char → Bool} :
    ∀ (l : List Char) (c : Char) (t : List Char), l.dropWhile p = c :: t → p c = false := by
  intro l
  induction l with
  | nil =>
    intro c t h
    simp [List.dropWhile] at h
  | cons a as ih =>
    intro c t h
    rw [List.dropWhile_cons] at h
    by_cases hp : p a = true
    · rw [if_pos hp] at h
      exact ih c t h
    · rw [if_neg hp] at h
      cases h
      simpa using hp

lemma stripEnds_isPrefixOf (p : Char → Bool) (l : List Char) :
    stripEnds p l <+: l.dropWhile p := by
  unfold stripEnds
  obtain ⟨t, ht⟩ := List.dropWhile_suffix (l := (l.dropWhile p).reverse) p
  refine ⟨t.reverse, ?_⟩
  have h2 := congrArg List.reverse ht
  simpa [List.reverse_append] using h2

lemma stripEnds_subset (p : Char → Bool) (l : List Char) {x : Char}
    (hx : x ∈ stripEnds p l) : x ∈ l :=
  (List.dropWhile_sublist p).subset ((stripEnds_isPrefixOf p l).subset hx)

lemma stripEnds_head_false (p : Char → Bool) (l : List Char) (c : Char) (t : List Char)
    (h : stripEnds p l = c :: t) : p c = false := by
  obtain ⟨u, hu⟩ := stripEnds_isPrefixOf p l
  rw [h, List.cons_append] at hu
  exact dropWhile_head_false l c (t ++ u) hu.symm

lemma collapseUnders_subset :
    ∀ (b : Bool) (l : List Char) (x : Char), x ∈ collapseUnders b l → x ∈ l := by
  intro b l
  induction l generalizing b with
  | nil =>
    intro x hx
    simp [collapseUnders] at hx
  | cons c rest ih =>
    intro x hx
    unfold collapseUnders at hx
    by_cases hc : c = '_'
    · rw [if_pos hc] at hx
      cases b with
      | true =>
        simp only [if_true] at hx
        exact List.mem_cons_of_mem _ (ih true x hx)
      | false =>
        simp only [Bool.false_eq_true, if_false] at hx
        rcases List.mem_cons.mp hx with h | h
        · rw [h, ← hc]
          exact List.mem_cons_self _ _
        · exact List.mem_cons_of_mem _ (ih true x h)
    · rw [if_neg hc] at hx
      rcases List.mem_cons.mp hx with h | h
      · rw [h]
        exact List.mem_cons_self _ _
      · exact List.mem_cons_of_mem _ (ih false x h)

lemma ascii_pipeline_tailOk (c : Char) (h : c.toNat < 128) :
    tailOk (subNonWord (pyLowerChar c)) = true := by
  have hall : ∀ n ∈ List.range 128, tailOk (subNonWord (pyLowerChar (Char.ofNat n))) = true := by
    decide
  have hc : Char.ofNat c.toNat = c := Char.ofNat_toNat c
  calc tailOk (subNonWord (pyLowerChar c))
      = tailOk (subNonWord (pyLowerChar (Char.ofNat c.toNat))) := by rw [hc]
    _ = true := hall c.toNat (List.mem_range.mpr h)

lemma snake_of_chars (c : Char) (t : List Char)
    (hc : (isLowerAZ c || c = '_') = true) (ht : ∀ x ∈ t, tailOk x = true) :
    matchesSnakeCase ⟨c :: t⟩ = true := by
  have hall : t.all tailOk = true := List.all_eq_true.mpr ht
  unfold matchesSnakeCase
  rw [show (⟨c :: t⟩ : String).data = c :: t from rfl]
  simp [hc, hall]

lemma cleanFinish_matches (fmt : String) (s4 : List Char)
    (h4 : ∀ x ∈ s4, tailOk x = true)
    (hh : ∀ c t, s4 = c :: t → c ≠ '_') :
    matchesSnakeCase (cleanFinish fmt s4) = true := by
  cases s4 with
  | nil =>
    by_cases hf : fmt = "ESRI Shapefile" <;> simp [cleanFinish, hf] <;> decide
  | cons c rest =>
    have hcok : tailOk c = true := h4 c (List.mem_cons_self _ _)
    have hrest : ∀ x ∈ rest, tailOk x = true := fun x hx =>
      h4 x (List.mem_cons_of_mem _ hx)
    have hne : c ≠ '_' := hh c rest rfl
    by_cases hd : c.isDigit = true
    · have hexp : "col_".data ++ (c :: rest) = 'c' :: (['o', 'l', '_'] ++ (c :: rest)) := rfl
      have htail : ∀ x ∈ ['o', 'l', '_'] ++ (c :: rest), tailOk x = true := by
        intro x hx
        rcases List.mem_append.mp hx with h | h
        · fin_cases h <;> decide
        · rcases List.mem_cons.mp h with h2 | h2
          · rw [h2]
            exact hcok
          · exact hrest x h2
      by_cases hf : fmt = "ESRI Shapefile"
      · have e : cleanFinish fmt (c :: rest) =
            ⟨'c' :: (['o', 'l', '_'] ++ (c :: rest)).take 9⟩ := by
          unfold cleanFinish
          simp only [hd, if_true, hf, hexp]
          rw [show ('c' :: (['o', 'l', '_'] ++ (c :: rest))).take 10 =
            'c' :: (['o', 'l', '_'] ++ (c :: rest)).take 9 from rfl]
          rfl
        rw [e]
        exact snake_of_chars _ _ (by decide)
          (fun x hx => htail x (List.take_subset _ _ hx))
      · have e : cleanFinish fmt (c :: rest) =
            ⟨'c' :: (['o', 'l', '_'] ++ (c :: rest))⟩ := by
          unfold cleanFinish
          simp only [hd, if_true, hf, Bool.false_eq_true, if_false, hexp]
          rfl
        rw [e]
        exact snake_of_chars _ _ (by decide) htail
    · have hch : (isLowerAZ c || c = '_') = true := by
        unfold tailOk at hcok
        rcases Bool.or_eq_true_iff.mp hcok with h | h
        · rcases Bool.or_eq_true_iff.mp h with h2 | h2
          · simp [h2]
          · exact absurd h2 hd
        · exact absurd (of_decide_eq_true h) hne
      by_cases hf : fmt = "ESRI Shapefile"
      · have e : cleanFinish fmt (c :: rest) = ⟨c :: rest.take 9⟩ := by
          unfold cleanFinish
          simp only [hd, Bool.false_eq_true, if_false, hf, if_true]
          rw [show (c :: rest).take 10 = c :: rest.take 9 from rfl]
          rfl
        rw [e]
        exact snake_of_chars _ _ hch (fun x hx => hrest x (List.take_subset _ _ hx))
      · have e : cleanFinish fmt (c :: rest) = ⟨c :: rest⟩ := by
          unfold cleanFinish
          simp only [hd, Bool.false_eq_true, if_false, hf]
          rfl
        rw [e]
        exact snake_of_chars _ _ hch hrest

lemma cleanCore_tailOk (nfkd : Char → List Char) (name : String) :
    ∀ x ∈ cleanCore nfkd name, tailOk x = true := by
  intro x hx
  unfold cleanCore at hx
  have hx3 : x ∈ ((stripEnds isPyWs
      (((name.data.flatMap nfkd).filter (fun c => c.toNat < 128)).map pyLowerChar)).map
        subNonWord) :=
    collapseUnders_subset false _ x (stripEnds_subset _ _ hx)
  obtain ⟨d, hd, hdx⟩ := List.mem_map.mp hx3
  obtain ⟨e, he, hed⟩ := List.mem_map.mp (stripEnds_subset _ _ hd)
  have h128 : e.toNat < 128 := of_decide_eq_true (List.mem_filter.mp he).2
  rw [← hdx, ← hed]
  exact ascii_pipeline_tailOk e h128

lemma cleanCore_head_ne (nfkd : Char → List Char) (name : String) (c : Char) (t : List Char)
    (h : cleanCore nfkd name = c :: t) : c ≠ '_' := by
  unfold cleanCore at h
  have := stripEnds_head_false (fun c => c = '_') _ c t h
  simpa using this

/-- Every output of `_clean_column_name` matches the regex `^[a-z_][a-z0-9_]*$`
(in fact it starts with a lowercase letter). -/
lemma cleanColumnName_matches (nfkd : Char → List Char) (fmt : String) (name : String) :
    matchesSnakeCase (cleanColumnName nfkd fmt name) = true :=
  cleanFinish_matches fmt (cleanCore nfkd name) (cleanCore_tailOk nfkd name)
    (cleanCore_head_ne nfkd name)

lemma decDigit_tailOk (n : Nat) : tailOk (decDigit n) = true := by
  have hall : ∀ k ∈ List.range 10, tailOk (Char.ofNat (48 + k)) = true := by decide
  unfold decDigit
  exact hall (n % 10) (List.mem_range.mpr (Nat.mod_lt n (by omega)))

lemma decReprAux_tailOk : ∀ (fuel n : Nat), ∀ x ∈ decReprAux fuel n, tailOk x = true := by
  intro fuel
  induction fuel with
  | zero =>
    intro n x hx
    simp [decReprAux] at hx
  | succ f ih =>
    intro n x hx
    unfold decReprAux at hx
    by_cases h : n < 10
    · rw [if_pos h] at hx
      rcases List.mem_singleton.mp hx with h2
      rw [h2]
      exact decDigit_tailOk n
    · rw [if_neg h] at hx
      rcases List.mem_append.mp hx with h2 | h2
      · exact ih (n / 10) x h2
      · rcases List.mem_singleton.mp h2 with h3
        rw [h3]
        exact decDigit_tailOk (n % 10)

lemma decRepr_tailOk (n : Nat) : ∀ x ∈ decRepr n, tailOk x = true :=
  decReprAux_tailOk (n + 1) n

lemma snake_append (s t : String) (hs : matchesSnakeCase s = true)
    (ht : ∀ x ∈ t.data, tailOk x = true) : matchesSnakeCase (s ++ t) = true := by
  unfold matchesSnakeCase at hs ⊢
  cases hd : s.data with
  | nil =>
    rw [hd] at hs
    simp at hs
  | cons c rest =>
    rw [hd] at hs
    have he : (s ++ t).data = c :: (rest ++ t.data) := by
      rw [String.data_append, hd]
      rfl
    rw [he]
    rcases Bool.and_eq_true_iff.mp hs with ⟨h1, h2⟩
    apply Bool.and_eq_true_iff.mpr
    refine ⟨h1, ?_⟩
    apply List.all_eq_true.mpr
    intro x hx
    rcases List.mem_append.mp hx with h3 | h3
    · exact List.all_eq_true.mp h2 x h3
    · exact ht x h3

lemma lookupStr_some_mem {α : Type} {l : List (String × α)} {key : String} {v : α}
    (h : lookupStr l key = some v) : (key, v) ∈ l := by
  induction l with
  | nil => simp [lookupStr] at h
  | cons p rest ih =>
    obtain ⟨k, w⟩ := p
    unfold lookupStr at h
    by_cases hk : k = key
    · rw [if_pos hk] at h
      injection h with h2
      rw [← hk, ← h2]
      exact List.mem_cons_self _ _
    · rw [if_neg hk] at h
      exact List.mem_cons_of_mem _ (ih h)

lemma lookupStr_none_not_mem {α : Type} {l : List (String × α)} {key : String}
    (h : lookupStr l key = none) : ∀ v : α, (key, v) ∉ l := by
  induction l with
  | nil => simp
  | cons p rest ih =>
    obtain ⟨k, w⟩ := p
    unfold lookupStr at h
    by_cases hk : k = key
    · rw [if_pos hk] at h
      cases h
    · rw [if_neg hk] at h
      intro v hv
      rcases List.mem_cons.mp hv with h2 | h2
      · exact hk (congrArg Prod.fst h2).symm
      · exact ih h v h2

lemma dedupRenames_keys (seen : List (String × Nat)) (prs : List (String × String)) :
    (dedupRenames seen prs).map Prod.fst = prs.map Prod.fst := by
  induction prs generalizing seen with
  | nil => rfl
  | cons pr rest ih =>
    obtain ⟨o, nw⟩ := pr
    unfold dedupRenames
    cases hl : lookupStr seen nw with
    | some k =>
      simp only [List.map_cons]
      rw [ih]
    | none =>
      simp only [List.map_cons]
      rw [ih]

lemma dedupRenames_mem (prs : List (String × String)) :
    ∀ (seen : List (String × Nat)) (old new : String),
      (old, new) ∈ dedupRenames seen prs →
      ∃ p ∈ prs, p.1 = old ∧
        (new = p.2 ∨ ∃ k : Nat, new = p.2 ++ "_" ++ (⟨decRepr k⟩ : String)) := by
  induction prs with
  | nil =>
    intro seen old new h
    simp [dedupRenames] at h
  | cons pr rest ih =>
    intro seen old new h
    obtain ⟨o, nw⟩ := pr
    unfold dedupRenames at h
    cases hl : lookupStr seen nw with
    | some k =>
      rw [hl] at h
      rcases List.mem_cons.mp h with h2 | h2
      · have ho : old = o := (congrArg Prod.fst h2)
        have hn : new = nw ++ "_" ++ (⟨decRepr (k + 1)⟩ : String) := (congrArg Prod.snd h2)
        exact ⟨(o, nw), List.mem_cons_self _ _, ho.symm, Or.inr ⟨k + 1, hn⟩⟩
      · obtain ⟨p, hp, h3⟩ := ih _ old new h2
        exact ⟨p, List.mem_cons_of_mem _ hp, h3⟩
    | none =>
      rw [hl] at h
      rcases List.mem_cons.mp h with h2 | h2
      · have ho : old = o := (congrArg Prod.fst h2)
        have hn : new = nw := (congrArg Prod.snd h2)
        exact ⟨(o, nw), List.mem_cons_self _ _, ho.symm, Or.inl hn⟩
      · obtain ⟨p, hp, h3⟩ := ih _ old new h2
        exact ⟨p, List.mem_cons_of_mem _ hp, h3⟩

lemma renamePairs_mem (nfkd : Char → List Char) (fmt : String) (cols : List String)
    (p : String × String) (h : p ∈ renamePairs nfkd fmt cols) :
    p.1 ∈ cols ∧ p.1 ≠ "geometry" ∧ p.2 = cleanColumnName nfkd fmt p.1 := by
  unfold renamePairs at h
  obtain ⟨col, hcol, hsome⟩ := List.mem_filterMap.mp h
  by_cases h1 : col = "geometry"
  · rw [if_pos h1] at hsome
    cases hsome
  · rw [if_neg h1] at hsome
    by_cases h2 : cleanColumnName nfkd fmt col = col
    · rw [if_pos h2] at hsome
      cases hsome
    · rw [if_neg h2] at hsome
      injection hsome with h3
      rw [← h3]
      exact ⟨hcol, h1, rfl⟩

/-- Every non-geometry label computed by phases 1-2 matches the regex
`^[a-z_][a-z0-9_]*$`, for every input, every NFKD decomposition and every
target format. -/
lemma normalizeColumns_regex (nfkd : Char → List Char) (fmt : String)
    (cols : List String) :
    ∀ c ∈ normalizeColumns nfkd fmt cols, c ≠ "geometry" → matchesSnakeCase c = true := by
  intro c hc hgeom
  unfold normalizeColumns dropGhosts at hc
  have hc2 : c ∈ applyRename (dedupRenames [] (renamePairs nfkd fmt cols)) cols :=
    (List.mem_filter.mp hc).1
  unfold applyRename at hc2
  obtain ⟨col, hcol, hmatch⟩ := List.mem_map.mp hc2
  cases hl : lookupStr (dedupRenames [] (renamePairs nfkd fmt cols)) col with
  | none =>
    rw [hl] at hmatch
    by_cases hcc : cleanColumnName nfkd fmt col = col
    · rw [← hmatch, ← hcc]
      exact cleanColumnName_matches nfkd fmt col
    · exfalso
      have hgcol : col ≠ "geometry" := by
        rw [← hmatch] at hgeom
        exact hgeom
      have hpair : (col, cleanColumnName nfkd fmt col) ∈ renamePairs nfkd fmt cols := by
        unfold renamePairs
        apply List.mem_filterMap.mpr
        refine ⟨col, hcol, ?_⟩
        rw [if_neg hgcol, if_neg hcc]
      have hkey : col ∈ (dedupRenames [] (renamePairs nfkd fmt cols)).map Prod.fst := by
        rw [dedupRenames_keys]
        exact List.mem_map.mpr ⟨(col, cleanColumnName nfkd fmt col), hpair, rfl⟩
      obtain ⟨⟨k, v⟩, hm, hk⟩ := List.mem_map.mp hkey
      have hk2 : k = col := hk
      subst hk2
      exact lookupStr_none_not_mem hl v hm
  | some n =>
    rw [hl] at hmatch
    have hmem : (col, n) ∈ dedupRenames [] (renamePairs nfkd fmt cols) :=
      lookupStr_some_mem hl
    obtain ⟨p, hp, hpo, hval⟩ := dedupRenames_mem _ [] col n hmem
    have hpr := renamePairs_mem nfkd fmt cols p hp
    rcases hval with h | ⟨k, h⟩
    · rw [← hmatch, h, hpr.2.2]
      exact cleanColumnName_matches nfkd fmt p.1
    · rw [← hmatch, h, hpr.2.2]
      apply snake_append
      · apply snake_append
        · exact cleanColumnName_matches nfkd fmt p.1
        · intro x hx
          rcases List.mem_singleton.mp hx with h2
          rw [h2]
          decide
      · intro x hx
        exact decRepr_tailOk k x hx

/-- **C2 (amended).** For every run of `AttributeNormalizer.normalize` that
returns, every non-geometry column name matches the regex
`^[a-z_][a-z0-9_]*$` and the non-geometry labels are pairwise distinct
(a run that would leave a duplicated non-geometry label raises
`AttributeError` in phase 3 instead of returning). Full pairwise
distinctness of *all* labels and the 10-character bound for shapefile
targets do **not** hold; see the counterexample. -/
theorem attribute_normalizer_column_regex (nfkd : Char → List Char) (fmt : String)
    (cols : List String) (out : List String)
    (hout : normalizeLabels nfkd fmt cols = Except.ok out) :
    (∀ c ∈ out, c ≠ "geometry" → matchesSnakeCase c = true) ∧
    (out.filter (fun c => c ≠ "geometry")).Nodup := by
  unfold normalizeLabels at hout
  by_cases hn : ((normalizeColumns nfkd fmt cols).filter (fun c => c ≠ "geometry")).Nodup
  · rw [if_pos hn] at hout
    injection hout with h
    subst h
    exact ⟨fun c hc hg => normalizeColumns_regex nfkd fmt cols c hc hg, hn⟩
  · rw [if_neg hn] at hout
    cases hout

/-- **C2 witness**: on the single column `"Nom A"` with GeoJSON target,
`normalize` returns, the label becomes `"nom_a"`, it matches the regex, and
it is trivially distinct. -/
theorem attribute_normalizer_column_regex_witness :
    (∀ c ∈ (["nom_a"] : List String), c ≠ "geometry" → matchesSnakeCase c = true) ∧
    ((["nom_a"] : List String).filter (fun c => c ≠ "geometry")).Nodup :=
  attribute_normalizer_column_regex (fun c => [c]) "GeoJSON" ["Nom A"] ["nom_a"] rfl

/-- **C2 counterexample.** The claim as stated is false on the code:
(a) on `["a", "A"]` the collision resolution only walks the rename map, so
`"A"` is renamed to `"a"` next to the untouched column `"a"`; the duplicate
label then makes phase 3 raise `AttributeError` (`gdf["a"]` is a DataFrame,
`.dtype` fails), so `normalize` never returns on this input — it neither
returns distinct names nor returns at all; (b) a column `"Geometry"` is
renamed to `"geometry"` — a label every later phase skips — so `normalize`
**returns** `["geometry", "geometry"]`: the returned names are not pairwise
distinct; (c) the shapefile 10-character truncation runs *before* collision
disambiguation, so `normalize` returns the 12-character `"abcdefghij_1"`
for a shapefile target. -/
theorem attribute_normalizer_column_names_cex :
    normalizeLabels (fun c => [c]) "GeoJSON" ["a", "A"] =
      Except.error NormalizeError.attributeError ∧
    normalizeLabels (fun c => [c]) "GeoJSON" ["geometry", "Geometry"] =
      Except.ok ["geometry", "geometry"] ∧
    ¬ (["geometry", "geometry"] : List String).Nodup ∧
    normalizeLabels (fun c => [c]) "ESRI Shapefile" ["abcdefghijk", "abcdefghijx"] =
      Except.ok ["abcdefghij", "abcdefghij_1"] ∧
    ("abcdefghij_1" : String).length = 12 := by
  refine ⟨rfl, rfl, by decide, rfl, by decide⟩

/-! ## Artifact retrieval (`api/v1/download.py`)

`get_download_url` is modelled as a pure function of the job table, the
requesting user, the requested job id and the current time; raised
`HTTPException`s become `Except.error` carrying the status code. The
SQLAlchemy query filters on **both** `ConversionJob.id == uuid` and
`ConversionJob.user_id == current_user.id`; `scalar_one_or_none` returns the
single match, `None` when there is none, and raises
(`MultipleResultsFound`, surfacing as a 500) otherwise. Times are seconds
(`utcnow() + timedelta(hours=1)` is `now + 3600`).
-/

inductive JobStatus
  | pending
  | processing
  | success
  | failed
  | expired
deriving DecidableEq, Repr

structure ConversionJob where
  id : Nat
  user_id : Nat
  status : JobStatus
  output_storage_path : Option String
  download_expires_at : Option Int
deriving DecidableEq, Repr

structure DownloadUrlResponse where
  job_id : Nat
  storage_path : String
  url_ttl_seconds : Nat
  expires_at : Option Int
deriving DecidableEq, Repr

/-- The `select(ConversionJob).where(id == job_id, user_id == current_user.id)`
result set. -/
def jobQuery (db : List ConversionJob) (jid uid : Nat) : List ConversionJob :=
  db.filter (fun j => j.id == jid && j.user_id == uid)

/-- `get_download_url` (download.py lines 35-95). -/
def getDownloadUrl (db : List ConversionJob) (uid jid : Nat) (now : Int) :
    Except Nat DownloadUrlResponse :=
  match jobQuery db jid uid with
  | [] => Except.error 404
  | [job] =>
    if job.status ≠ JobStatus.success then Except.error 400
    else
      match job.output_storage_path with
      | none => Except.error 404
      | some path =>
        match job.download_expires_at with
        | some e =>
          if e < now then Except.error 410
          else Except.ok ⟨jid, path, 3600, some e⟩
        | none => Except.ok ⟨jid, path, 3600, some (now + 3600)⟩
  | _ => Except.error 500

lemma jobQuery_eq_nil (db : List ConversionJob) (jid uid : Nat)
    (h : ∀ j ∈ db, ¬(j.id = jid ∧ j.user_id = uid)) : jobQuery db jid uid = [] := by
  apply List.filter_eq_nil_iff.mpr
  intro j hj
  have := h j hj
  simp only [Bool.and_eq_true, beq_iff_eq]
  intro hcon
  exact this hcon

lemma jobQuery_eq_singleton (db : List ConversionJob) (jid uid : Nat)
    (hids : (db.map ConversionJob.id).Nodup) (j : ConversionJob) (hj : j ∈ db)
    (h1 : j.id = jid) (h2 : j.user_id = uid) : jobQuery db jid uid = [j] := by
  induction db with
  | nil => cases hj
  | cons a rest ih =>
    have hids2 : (rest.map ConversionJob.id).Nodup := (List.nodup_cons.mp hids).2
    have hanotin : a.id ∉ rest.map ConversionJob.id := (List.nodup_cons.mp hids).1
    rcases List.mem_cons.mp hj with hja | hja
    · subst hja
      unfold jobQuery
      rw [List.filter_cons, if_pos (by simp [h1, h2])]
      have : rest.filter (fun x => x.id == jid && x.user_id == uid) = [] := by
        apply List.filter_eq_nil_iff.mpr
        intro x hx
        simp only [Bool.and_eq_true, beq_iff_eq]
        intro hcon
        exact hanotin (by
          rw [h1, ← hcon.1]
          exact List.mem_map.mpr ⟨x, hx, rfl⟩)
      unfold jobQuery at this
      rw [this]
    · have ha : ¬ (a.id = jid ∧ a.user_id = uid) := by
        intro hcon
        exact hanotin (by
          rw [hcon.1, ← h1]
          exact List.mem_map.mpr ⟨j, hja, rfl⟩)
      unfold jobQuery
      rw [List.filter_cons, if_neg (by
        simp only [Bool.and_eq_true, beq_iff_eq]
        exact ha)]
      exact ih hids2 hja

/-- **C3 (amended).** Artifact retrieval returns 404 both when no job with the
requested id exists **and when the job exists but belongs to a different
user** (the query filters on owner and id together, so a foreign job is
indistinguishable from a missing one — no 403 is produced); for the owned
job it returns 400 when the status is not success, 404 when the output
storage path is null, 410 when the download expiry is set and in the past,
and a URL with 1-hour (3600 s) TTL only when all checks pass. -/
theorem download_access_control (db : List ConversionJob) (uid jid : Nat) (now : Int)
    (hids : (db.map ConversionJob.id).Nodup) :
    ((∀ j ∈ db, ¬(j.id = jid ∧ j.user_id = uid)) →
      getDownloadUrl db uid jid now = Except.error 404) ∧
    (∀ j ∈ db, j.id = jid → j.user_id = uid →
      ((j.status ≠ JobStatus.success → getDownloadUrl db uid jid now = Except.error 400) ∧
       (j.status = JobStatus.success → j.output_storage_path = none →
         getDownloadUrl db uid jid now = Except.error 404) ∧
       (∀ p e, j.status = JobStatus.success → j.output_storage_path = some p →
         j.download_expires_at = some e → e < now →
         getDownloadUrl db uid jid now = Except.error 410) ∧
       (∀ p e, j.status = JobStatus.success → j.output_storage_path = some p →
         j.download_expires_at = some e → ¬ e < now →
         getDownloadUrl db uid jid now = Except.ok ⟨jid, p, 3600, some e⟩) ∧
       (∀ p, j.status = JobStatus.success → j.output_storage_path = some p →
         j.download_expires_at = none →
         getDownloadUrl db uid jid now = Except.ok ⟨jid, p, 3600, some (now + 3600)⟩))) := by
  constructor
  · intro h
    unfold getDownloadUrl
    rw [jobQuery_eq_nil db jid uid h]
  · intro j hj h1 h2
    have hq : jobQuery db jid uid = [j] := jobQuery_eq_singleton db jid uid hids j hj h1 h2
    refine ⟨?_, ?_, ?_, ?_, ?_⟩
    · intro hs
      unfold getDownloadUrl
      rw [hq]
      simp [hs]
    · intro hs hp
      unfold getDownloadUrl
      rw [hq]
      simp [hs, hp]
    · intro p e hs hp he hlt
      unfold getDownloadUrl
      rw [hq]
      simp [hs, hp, he, hlt]
    · intro p e hs hp he hlt
      unfold getDownloadUrl
      rw [hq]
      simp [hs, hp, he, hlt]
    · intro p hs hp he
      unfold getDownloadUrl
      rw [hq]
      simp [hs, hp, he]

/-- **C3 witness**: a pending job owned by user 5 yields 400. -/
theorem download_access_control_witness :
    getDownloadUrl [⟨1, 5, JobStatus.pending, none, none⟩] 5 1 0 = Except.error 400 := by
  have h := download_access_control [⟨1, 5, JobStatus.pending, none, none⟩] 5 1 0 (by decide)
  exact ((h.2 ⟨1, 5, JobStatus.pending, none, none⟩ (by decide) rfl rfl).1 (by decide))

/-- **C3 counterexample.** A job that exists but belongs to another user
(job 1 owned by user 2, requested by user 1) is answered with 404, not with
the 403 the claim states: the ownership filter is part of the lookup. -/
theorem download_other_user_gets_404_cex :
    getDownloadUrl [⟨1, 2, JobStatus.success, some "outputs/a.zip", some 1000⟩] 1 1 0 =
      Except.error 404 ∧
    getDownloadUrl [⟨1, 2, JobStatus.success, some "outputs/a.zip", some 1000⟩] 1 1 0 ≠
      Except.error 403 ∧
    (⟨1, 2, JobStatus.success, some "outputs/a.zip", some 1000⟩ : ConversionJob).id = 1 ∧
    (⟨1, 2, JobStatus.success, some "outputs/a.zip", some 1000⟩ : ConversionJob).user_id ≠ 1 := by
  refine ⟨rfl, ?_, rfl, by decide⟩
  intro h
  have h2 : (Except.error 404 : Except Nat DownloadUrlResponse) = Except.error 403 := h
  simp at h2

/-! ## Job submission and quota (`api/v1/convert.py`)

`check_quota` and `create_conversion_job` act on the user's subscription row
and the job table; both are modelled as one state-transition function. The
`HTTPException(429)` raised by `check_quota` aborts the request before any
row is written, so the refused branch returns the state unchanged; the
accepted branch performs the insert and the counter increment of the single
commit.
-/

inductive PlanType
  | free
  | starter
  | pro
  | enterprise
deriving DecidableEq, Repr

/-- `PLAN_LIMITS` (convert.py lines 86-91); `-1` marks unlimited. -/
def planLimits (p : PlanType) : Int :=
  match p with
  | .free => 5
  | .starter => 100
  | .pro => 1000
  | .enterprise => -1

structure Subscription where
  plan : PlanType
  conversions_used_this_month : Nat
deriving DecidableEq, Repr

structure SubmitState where
  sub : Subscription
  jobs : List JobStatus
deriving DecidableEq, Repr

/-- The refusal test of `check_quota` (lines 100-106):
`limit != -1 and sub.conversions_used_this_month >= limit`. -/
def quotaRefused (sub : Subscription) : Bool :=
  planLimits sub.plan ≠ -1 && (sub.conversions_used_this_month : Int) ≥ planLimits sub.plan

inductive SubmitResult
  | refused (st : SubmitState)
  | accepted (st : SubmitState)
deriving DecidableEq, Repr

/-- `create_conversion_job` (convert.py lines 112-157): refuse with
`QuotaExhausted` before touching the database, or insert one pending job and
increment the subscription counter in the same commit. -/
def createConversionJob (st : SubmitState) : SubmitResult :=
  if quotaRefused st.sub then SubmitResult.refused st
  else
    SubmitResult.accepted
      { sub := { plan := st.sub.plan,
                 conversions_used_this_month := st.sub.conversions_used_this_month + 1 },
        jobs := st.jobs ++ [JobStatus.pending] }

lemma quotaRefused_iff (sub : Subscription) :
    quotaRefused sub = true ↔
      (planLimits sub.plan ≠ -1 ∧
        planLimits sub.plan ≤ (sub.conversions_used_this_month : Int)) := by
  simp [quotaRefused, Bool.and_eq_true, decide_eq_true_eq, ge_iff_le]

/-- **C4.** A submission is refused with `QuotaExhausted` exactly when the
plan limit is finite (not −1) and `conversions_used_this_month ≥ plan_limit`;
a plan limit of −1 never refuses; a refused submission creates no job row and
leaves the counter unchanged; an accepted submission appends one pending job
and increments the counter by one. -/
theorem quota_enforcement (st : SubmitState) :
    (planLimits st.sub.plan ≠ -1 →
      (createConversionJob st = SubmitResult.refused st ↔
        planLimits st.sub.plan ≤ (st.sub.conversions_used_this_month : Int))) ∧
    (planLimits st.sub.plan = -1 →
      createConversionJob st =
        SubmitResult.accepted
          { sub := { plan := st.sub.plan,
                     conversions_used_this_month := st.sub.conversions_used_this_month + 1 },
            jobs := st.jobs ++ [JobStatus.pending] }) ∧
    (∀ st2, createConversionJob st = SubmitResult.refused st2 → st2 = st) ∧
    (∀ st2, createConversionJob st = SubmitResult.accepted st2 →
      st2.jobs = st.jobs ++ [JobStatus.pending] ∧
      st2.sub.conversions_used_this_month = st.sub.conversions_used_this_month + 1 ∧
      st2.sub.plan = st.sub.plan) := by
  by_cases hq : quotaRefused st.sub = true
  · have hiff := (quotaRefused_iff st.sub).mp hq
    refine ⟨?_, ?_, ?_, ?_⟩
    · intro _
      simp [createConversionJob, hq]
      exact hiff.2
    · intro hcon
      exact absurd hcon hiff.1
    · intro st2 h
      simp [createConversionJob, hq] at h
      exact h.symm
    · intro st2 h
      simp [createConversionJob, hq] at h
  · refine ⟨?_, ?_, ?_, ?_⟩
    · intro hfin
      constructor
      · intro h
        simp [createConversionJob, hq] at h
      · intro hge
        exact absurd ((quotaRefused_iff st.sub).mpr ⟨hfin, hge⟩) hq
    · intro _
      simp [createConversionJob, hq]
    · intro st2 h
      simp [createConversionJob, hq] at h
    · intro st2 h
      simp only [createConversionJob, hq, Bool.false_eq_true, if_false,
        SubmitResult.accepted.injEq] at h
      rw [← h]
      exact ⟨rfl, rfl, rfl⟩

/-! ## Worker retry policy (`workers/conversion_tasks.py`)

The Celery task `convert_file` is declared with `max_retries=2` and
`default_retry_delay=10` (lines 29-35). Its exception handler (lines
118-126) first marks the job failed, then re-raises through `self.retry`
only when `"Connection" in str(exc) or "timeout" in str(exc).lower()`; any
other exception (and `SoftTimeLimitExceeded`) is terminal. `runConvertFrom`
models the resulting attempt loop: `outcomes n` is what the n-th execution
of the body does.
-/

def maxRetries : Nat := 2

def defaultRetryDelay : Nat := 10

/-- Python `needle in hay` on strings: contiguous substring. -/
def strContains (needle hay : String) : Bool := decide (needle.data <:+: hay.data)

/-- The transient-error test of the `except Exception` handler (line 123). -/
def isTransient (msg : String) : Bool :=
  strContains "Connection" msg || strContains "timeout" (pyLowerStr msg)

inductive ProcOutcome
  | ok
  | softTimeout
  | err (msg : String)

structure RunOutcome where
  attempts : Nat
  finalStatus : JobStatus
  delays : List Nat
deriving DecidableEq, Repr

/-- The attempt loop Celery runs for `convert_file`: success returns, a soft
time-limit or a non-transient error ends with the job failed, and a
transient error retries after `default_retry_delay` seconds while retries
remain (`self.retry` past `max_retries` re-raises, leaving the job failed).
The job row is marked failed on every failing attempt, so the final status
reflects the last attempt. -/
def runConvertFrom (outcomes : Nat → ProcOutcome) : Nat → Nat → RunOutcome
  | 0, attempt =>
    match outcomes attempt with
    | ProcOutcome.ok => ⟨1, JobStatus.success, []⟩
    | ProcOutcome.softTimeout => ⟨1, JobStatus.failed, []⟩
    | ProcOutcome.err _ => ⟨1, JobStatus.failed, []⟩
  | r + 1, attempt =>
    match outcomes attempt with
    | ProcOutcome.ok => ⟨1, JobStatus.success, []⟩
    | ProcOutcome.softTimeout => ⟨1, JobStatus.failed, []⟩
    | ProcOutcome.err msg =>
      if isTransient msg then
        let rest := runConvertFrom outcomes r (attempt + 1)
        ⟨rest.attempts + 1, rest.finalStatus, defaultRetryDelay :: rest.delays⟩
      else ⟨1, JobStatus.failed, []⟩

lemma runConvertFrom_succ (outcomes : Nat → ProcOutcome) (r attempt : Nat) :
    runConvertFrom outcomes (r + 1) attempt =
      match outcomes attempt with
      | ProcOutcome.ok => ⟨1, JobStatus.success, []⟩
      | ProcOutcome.softTimeout => ⟨1, JobStatus.failed, []⟩
      | ProcOutcome.err msg =>
        if isTransient msg then
          ⟨(runConvertFrom outcomes r (attempt + 1)).attempts + 1,
           (runConvertFrom outcomes r (attempt + 1)).finalStatus,
           defaultRetryDelay :: (runConvertFrom outcomes r (attempt + 1)).delays⟩
        else ⟨1, JobStatus.failed, []⟩ := rfl

lemma runConvertFrom_zero (outcomes : Nat → ProcOutcome) (attempt : Nat) :
    runConvertFrom outcomes 0 attempt =
      match outcomes attempt with
      | ProcOutcome.ok => ⟨1, JobStatus.success, []⟩
      | ProcOutcome.softTimeout => ⟨1, JobStatus.failed, []⟩
      | ProcOutcome.err _ => ⟨1, JobStatus.failed, []⟩ := rfl

/-- One dispatched `convert_file` task, `max_retries` retries available. -/
def runConvert (outcomes : Nat → ProcOutcome) : RunOutcome :=
  runConvertFrom outcomes maxRetries 0

/-- **C5 (amended).** An error is retried only when its message contains
`"Connection"` **case-sensitively** or `"timeout"` case-insensitively — a
lowercase `"connection ..."` message is terminal, contrary to the claim's
case-insensitive reading. A persistently transient error is attempted
1 + 2 = 3 times with a fixed 10-second back-off before each retry and the
job ends failed; a non-transient error and a soft-timeout are terminal on
the first attempt with the job marked failed. -/
theorem worker_retry_policy (msg : String) (outcomes : Nat → ProcOutcome) :
    (isTransient msg = true ↔
      ("Connection".data <:+: msg.data ∨ "timeout".data <:+: (pyLowerStr msg).data)) ∧
    (outcomes 0 = ProcOutcome.err msg → isTransient msg = false →
      runConvert outcomes = ⟨1, JobStatus.failed, []⟩) ∧
    (outcomes 0 = ProcOutcome.softTimeout →
      runConvert outcomes = ⟨1, JobStatus.failed, []⟩) ∧
    ((∀ n, outcomes n = ProcOutcome.err msg) → isTransient msg = true →
      runConvert outcomes = ⟨3, JobStatus.failed, [10, 10]⟩) ∧
    (outcomes 0 = ProcOutcome.err msg → isTransient msg = true →
      outcomes 1 = ProcOutcome.ok →
      runConvert outcomes = ⟨2, JobStatus.success, [10]⟩) ∧
    maxRetries = 2 ∧ defaultRetryDelay = 10 := by
  refine ⟨?_, ?_, ?_, ?_, ?_, rfl, rfl⟩
  · simp [isTransient, strContains, Bool.or_eq_true_iff]
  · intro h0 ht
    show runConvertFrom outcomes 2 0 = _
    rw [runConvertFrom_succ, h0]
    simp [ht]
  · intro h0
    show runConvertFrom outcomes 2 0 = _
    rw [runConvertFrom_succ, h0]
  · intro hall ht
    show runConvertFrom outcomes 2 0 = _
    rw [runConvertFrom_succ, hall 0]
    simp only [ht, if_true]
    rw [runConvertFrom_succ, hall 1]
    simp only [ht, if_true]
    rw [runConvertFrom_zero, hall 2]
    rfl
  · intro h0 ht h1
    show runConvertFrom outcomes 2 0 = _
    rw [runConvertFrom_succ, h0]
    simp only [ht, if_true]
    rw [runConvertFrom_succ, h1]
    rfl

/-- **C5 counterexample.** The message `"connection refused by peer"`
contains `"connection"` (so the claim, read case-insensitively, says it is
retried), yet the code's test is false on it — capital-C `"Connection"` does
not occur and `"timeout"` does not occur — so the task is terminal on the
first attempt. -/
theorem worker_retry_lowercase_connection_cex :
    ("connection".data <:+: "connection refused by peer".data) ∧
    isTransient "connection refused by peer" = false ∧
    runConvert (fun _ => ProcOutcome.err "connection refused by peer") =
      ⟨1, JobStatus.failed, []⟩ := by
  refine ⟨by decide, by decide, ?_⟩
  have ht : isTransient "connection refused by peer" = false := by decide
  show runConvertFrom _ 2 0 = _
  rw [runConvertFrom_succ]
  simp [ht]

/-! ## Projection detector, extent heuristic (`services/projection_detector.py`)

`_detect_from_extent` compares the dataset's axis-aligned bounds with a
built-in table of bounding boxes and keeps the containing candidate of
smallest area. The float literals of the table are exact decimals, modelled
as rationals; `(best_epsg, best_score)` is `none` for
`(None, float("inf"))`.
-/

structure BBox where
  minx : ℚ
  miny : ℚ
  maxx : ℚ
  maxy : ℚ
deriving DecidableEq, Repr

/-- `ProjectionDetector.KNOWN_CRS_BBOXES` (projection_detector.py lines
23-33), in dict insertion order. -/
def knownCrsBboxes : List (Nat × BBox) :=
  [ (4326, ⟨-180, -90, 180, 90⟩),
    (2154, ⟨99220, 6049997, 1242456, 7110480⟩),
    (3857, ⟨-20037508, -20048966, 20037508, 20048966⟩),
    (4171, ⟨-5.14, 41.33, 9.56, 51.09⟩),
    (32631, ⟨166022, 0, 833978, 9329005⟩),
    (32632, ⟨166022, 0, 833978, 9329005⟩),
    (27700, ⟨-103976, -16703, 652897, 1199848⟩),
    (25831, ⟨119303, 1116915, 1320416, 9554469⟩),
    (25832, ⟨243900, 1116915, 1783532, 9554469⟩) ]

/-- The containment test of `_detect_from_extent` (lines 111-114): both
corners of the data bounds inside the candidate bbox, coordinatewise. -/
def containsBounds (bbox : BBox) (d : BBox) : Bool :=
  bbox.minx ≤ d.minx && d.minx ≤ bbox.maxx &&
  bbox.miny ≤ d.miny && d.miny ≤ bbox.maxy &&
  bbox.minx ≤ d.maxx && d.maxx ≤ bbox.maxx &&
  bbox.miny ≤ d.maxy && d.maxy ≤ bbox.maxy

/-- `bbox_area` (line 116). -/
def bboxArea (b : BBox) : ℚ := (b.maxx - b.minx) * (b.maxy - b.miny)

/-- The candidate loop of `_detect_from_extent` (lines 109-119): strict
`bbox_area < best_score`, so the first candidate wins area ties. -/
def extentBest (d : BBox) : List (Nat × BBox) → Option (Nat × ℚ) → Option (Nat × ℚ)
  | [], acc => acc
  | (e, b) :: rest, acc =>
    if containsBounds b d then
      match acc with
      | none => extentBest d rest (some (e, bboxArea b))
      | some (e0, s0) =>
        if bboxArea b < s0 then extentBest d rest (some (e, bboxArea b))
        else extentBest d rest (some (e0, s0))
    else extentBest d rest acc

/-- `_detect_from_extent` (lines 98-124) on a non-empty dataset whose bounds
were computed without error: `(epsg, confidence)`. -/
def detectFromExtent (d : BBox) : Option Nat × String :=
  match extentBest d knownCrsBboxes none with
  | some (e, _) => (some e, "medium")
  | none => (none, "low")

lemma extentBest_nil (d : BBox) (acc : Option (Nat × ℚ)) : extentBest d [] acc = acc := rfl

lemma extentBest_none (d : BBox) :
    ∀ (tbl : List (Nat × BBox)) (acc : Option (Nat × ℚ)),
      extentBest d tbl acc = none →
      acc = none ∧ ∀ p ∈ tbl, containsBounds p.2 d = false := by
  intro tbl
  induction tbl with
  | nil =>
    intro acc h
    rw [extentBest_nil] at h
    exact ⟨h, by simp⟩
  | cons q rest ih =>
    intro acc h
    obtain ⟨e1, b1⟩ := q
    unfold extentBest at h
    by_cases hc : containsBounds b1 d = true
    · rw [if_pos hc] at h
      exfalso
      cases acc with
      | none => exact Option.noConfusion (ih _ h).1
      | some p =>
        obtain ⟨ea, sa⟩ := p
        have h2 : (if bboxArea b1 < sa then extentBest d rest (some (e1, bboxArea b1))
            else extentBest d rest (some (ea, sa))) = none := h
        by_cases hlt : bboxArea b1 < sa
        · rw [if_pos hlt] at h2
          exact Option.noConfusion (ih _ h2).1
        · rw [if_neg hlt] at h2
          exact Option.noConfusion (ih _ h2).1
    · rw [if_neg hc] at h
      obtain ⟨h1, h2⟩ := ih acc h
      refine ⟨h1, ?_⟩
      intro p hp
      rcases List.mem_cons.mp hp with hp1 | hp1
      · rw [hp1]
        exact Bool.eq_false_iff.mpr hc
      · exact h2 p hp1

lemma extentBest_some (d : BBox) :
    ∀ (tbl : List (Nat × BBox)) (acc : Option (Nat × ℚ)) (e : Nat) (s : ℚ),
      extentBest d tbl acc = some (e, s) →
      (acc = some (e, s) ∨
        ∃ b, (e, b) ∈ tbl ∧ containsBounds b d = true ∧ s = bboxArea b) ∧
      (∀ p ∈ tbl, containsBounds p.2 d = true → s ≤ bboxArea p.2) ∧
      (∀ e0 s0, acc = some (e0, s0) → s ≤ s0) := by
  intro tbl
  induction tbl with
  | nil =>
    intro acc e s h
    rw [extentBest_nil] at h
    refine ⟨Or.inl h, by simp, ?_⟩
    intro e0 s0 h0
    rw [h] at h0
    injection h0 with h1
    cases h1
    exact le_refl s
  | cons q rest ih =>
    intro acc e s h
    obtain ⟨e1, b1⟩ := q
    unfold extentBest at h
    by_cases hc : containsBounds b1 d = true
    · rw [if_pos hc] at h
      cases acc with
      | none =>
        obtain ⟨h1, h2, h3⟩ := ih _ e s h
        refine ⟨?_, ?_, ?_⟩
        · right
          rcases h1 with heq | ⟨b, hb, hcb, hs⟩
          · injection heq with heq2
            cases heq2
            exact ⟨b1, List.mem_cons_self _ _, hc, rfl⟩
          · exact ⟨b, List.mem_cons_of_mem _ hb, hcb, hs⟩
        · intro p hp hcp
          rcases List.mem_cons.mp hp with hp1 | hp1
          · rw [hp1]
            exact h3 e1 (bboxArea b1) rfl
          · exact h2 p hp1 hcp
        · intro e0 s0 h0
          cases h0
      | some pa =>
        obtain ⟨ea, sa⟩ := pa
        have hmr : (if bboxArea b1 < sa then extentBest d rest (some (e1, bboxArea b1))
            else extentBest d rest (some (ea, sa))) = some (e, s) := h
        by_cases hlt : bboxArea b1 < sa
        · rw [if_pos hlt] at hmr
          obtain ⟨h1, h2, h3⟩ := ih _ e s hmr
          have hsb : s ≤ bboxArea b1 := h3 e1 (bboxArea b1) rfl
          refine ⟨?_, ?_, ?_⟩
          · right
            rcases h1 with heq | ⟨b, hb, hcb, hs⟩
            · injection heq with heq2
              cases heq2
              exact ⟨b1, List.mem_cons_self _ _, hc, rfl⟩
            · exact ⟨b, List.mem_cons_of_mem _ hb, hcb, hs⟩
          · intro p hp hcp
            rcases List.mem_cons.mp hp with hp1 | hp1
            · rw [hp1]
              exact hsb
            · exact h2 p hp1 hcp
          · intro e0 s0 h0
            injection h0 with h01
            cases h01
            exact le_of_lt (lt_of_le_of_lt hsb hlt)
        · rw [if_neg hlt] at hmr
          obtain ⟨h1, h2, h3⟩ := ih _ e s hmr
          have hsa : s ≤ sa := h3 ea sa rfl
          refine ⟨?_, ?_, ?_⟩
          · rcases h1 with heq | ⟨b, hb, hcb, hs⟩
            · exact Or.inl heq
            · exact Or.inr ⟨b, List.mem_cons_of_mem _ hb, hcb, hs⟩
          · intro p hp hcp
            rcases List.mem_cons.mp hp with hp1 | hp1
            · rw [hp1]
              exact le_trans hsa (le_of_not_lt hlt)
            · exact h2 p hp1 hcp
          · intro e0 s0 h0
            injection h0 with h01
            cases h01
            exact hsa
    · rw [if_neg hc] at h
      obtain ⟨h1, h2, h3⟩ := ih acc e s h
      refine ⟨?_, ?_, h3⟩
      · rcases h1 with heq | ⟨b, hb, hcb, hs⟩
        · exact Or.inl heq
        · exact Or.inr ⟨b, List.mem_cons_of_mem _ hb, hcb, hs⟩
      · intro p hp hcp
        rcases List.mem_cons.mp hp with hp1 | hp1
        · rw [hp1] at hcp
          exact absurd hcp hc
        · exact h2 p hp1 hcp

/-- **C6.** For every data bounding box, the extent heuristic returns the
EPSG code of a table entry whose declared bounding box contains the data box
and whose area is minimal among all containing candidates, with confidence
`"medium"`; when no candidate contains the data box it returns a null EPSG
with confidence `"low"`. -/
theorem projection_extent_heuristic (d : BBox) :
    (∀ e, (detectFromExtent d).1 = some e →
      (detectFromExtent d).2 = "medium" ∧
      ∃ b, (e, b) ∈ knownCrsBboxes ∧ containsBounds b d = true ∧
        ∀ p ∈ knownCrsBboxes, containsBounds p.2 d = true →
          bboxArea b ≤ bboxArea p.2) ∧
    ((detectFromExtent d).1 = none →
      (detectFromExtent d).2 = "low" ∧
      ∀ p ∈ knownCrsBboxes, containsBounds p.2 d = false) := by
  constructor
  · intro e he
    unfold detectFromExtent at he ⊢
    cases hx : extentBest d knownCrsBboxes none with
    | none =>
      rw [hx] at he
      cases he
    | some pa =>
      obtain ⟨e1, s⟩ := pa
      rw [hx] at he
      have he2 : e1 = e := by
        injection he with h2
      subst he2
      obtain ⟨h1, h2, _⟩ := extentBest_some d knownCrsBboxes none e1 s hx
      rcases h1 with heq | ⟨b, hb, hcb, hs⟩
      · cases heq
      · refine ⟨rfl, b, hb, hcb, ?_⟩
        intro p hp hcp
        rw [← hs]
        exact h2 p hp hcp
  · intro he
    unfold detectFromExtent at he ⊢
    cases hx : extentBest d knownCrsBboxes none with
    | some pa =>
      obtain ⟨e1, s⟩ := pa
      rw [hx] at he
      cases he
    | none =>
      exact ⟨rfl, (extentBest_none d knownCrsBboxes none hx).2⟩

/-! ## Quality reporter score (`services/quality_reporter.py`)

`_compute_score` reads a handful of report fields; they are gathered in
`ScoreInput` (each field holds the value the `dict.get` lookups produce,
defaults already applied). Python `int()` truncates toward zero.
-/

/-- Python `int(x)` truncation toward zero on an exact decimal. -/
def pyInt (q : ℚ) : ℤ := if 0 ≤ q then ⌊q⌋ else ⌈q⌉

/-- Python truthiness of an optional EPSG code
(`if proj.get("source_epsg")`, `if target_epsg and source_epsg`). -/
def truthyEpsg : Option Int → Bool
  | none => false
  | some v => v != 0

structure ScoreInput where
  nullGeometryCount : Nat
  total : Nat
  validityRate : ℚ
  completenessRate : ℚ
  sourceEpsg : Option Int
  columns : List (String × Nat)

/-- The columns penalized by the type-quality dimension: text (`object`)
dtype with more than 50 distinct values. -/
def typePenaltyCount (cols : List (String × Nat)) : Nat :=
  (cols.filter (fun c => c.1 = "object" && 50 < c.2)).length

/-- `_compute_score` (quality_reporter.py lines 144-183), final clamp
included: geometry completeness 25, validity 25, attribute completeness 20,
CRS known 15 (else 5), type quality 15 − 2 per penalized column floored at
0, all clamped to [0, 100]. -/
def computeScore (inp : ScoreInput) : ℤ :=
  let nullRate : ℚ := (inp.nullGeometryCount : ℚ) / (max inp.total 1 : ℚ) * 100
  let s1 : ℤ := max 0 (25 - pyInt (nullRate / 4))
  let s2 : ℤ := pyInt (inp.validityRate / 4)
  let s3 : ℤ := pyInt (inp.completenessRate / 5)
  let s4 : ℤ := if truthyEpsg inp.sourceEpsg then 15 else 5
  let s5 : ℤ := max 0 (15 - 2 * (typePenaltyCount inp.columns : ℤ))
  min 100 (max 0 (s1 + s2 + s3 + s4 + s5))

/-- `_score_to_grade` (lines 187-192). -/
def scoreToGrade (s : ℤ) : String :=
  if s ≥ 90 then "A"
  else if s ≥ 80 then "B"
  else if s ≥ 70 then "C"
  else if s ≥ 60 then "D"
  else "F"

/-- **C7.** For every generated quality report the score lies in [0, 100]
and the grade letter is A when score ≥ 90, B when 80 ≤ score < 90, C when
70 ≤ score < 80, D when 60 ≤ score < 70, and F otherwise. -/
theorem quality_score_range_and_grade (inp : ScoreInput) :
    0 ≤ computeScore inp ∧ computeScore inp ≤ 100 ∧
    (90 ≤ computeScore inp → scoreToGrade (computeScore inp) = "A") ∧
    (80 ≤ computeScore inp → computeScore inp < 90 →
      scoreToGrade (computeScore inp) = "B") ∧
    (70 ≤ computeScore inp → computeScore inp < 80 →
      scoreToGrade (computeScore inp) = "C") ∧
    (60 ≤ computeScore inp → computeScore inp < 70 →
      scoreToGrade (computeScore inp) = "D") ∧
    (computeScore inp < 60 → scoreToGrade (computeScore inp) = "F") := by
  refine ⟨?_, ?_, ?_, ?_, ?_, ?_, ?_⟩
  · exact le_min (by norm_num) (le_max_left 0 _)
  · exact min_le_left 100 _
  · intro h
    unfold scoreToGrade
    rw [if_pos h]
  · intro h80 h90
    unfold scoreToGrade
    rw [if_neg (by omega), if_pos h80]
  · intro h70 h80
    unfold scoreToGrade
    rw [if_neg (by omega), if_neg (by omega), if_pos h70]
  · intro h60 h70
    unfold scoreToGrade
    rw [if_neg (by omega), if_neg (by omega), if_neg (by omega), if_pos h60]
  · intro h60
    unfold scoreToGrade
    rw [if_neg (by omega), if_neg (by omega), if_neg (by omega), if_neg (by omega)]

/-! ## Orchestrator reprojection stage (`services/gdal_processor.py`)

A GeoDataFrame, as the reprojection stage sees it, is its CRS tag plus the
log of coordinate transformations applied to it: `set_crs` changes metadata
only, `to_crs` records a transformation. Step 6 of `GDALProcessor.process`
(lines 101-108) picks between reprojecting, pinning an unset CRS, and
leaving the dataset alone, and computes the effective target EPSG.
-/

structure GeoFrame where
  crs : Option Int
  transforms : List (Option Int × Int)
deriving DecidableEq, Repr

/-- `gdf.set_crs(epsg=..., allow_override=True)`: metadata only. -/
def setCrs (g : GeoFrame) (epsg : Int) : GeoFrame := { g with crs := some epsg }

/-- `gdf.to_crs(epsg=...)`: transforms every geometry from the current CRS
to `epsg`. -/
def toCrs (g : GeoFrame) (epsg : Int) : GeoFrame :=
  { crs := some epsg, transforms := g.transforms ++ [(g.crs, epsg)] }

/-- `ProjectionDetector.reproject_geodataframe` (projection_detector.py lines
126-138): force the source CRS when unset or different, then transform. -/
def reprojectGeodataframe (g : GeoFrame) (sourceEpsg targetEpsg : Int) : GeoFrame :=
  let g1 :=
    match g.crs with
    | none => setCrs g sourceEpsg
    | some c => if c ≠ sourceEpsg then setCrs g sourceEpsg else g
  toCrs g1 targetEpsg

/-- Step 6 of `GDALProcessor.process` (gdal_processor.py lines 101-108):
`(dataset, effective_target_epsg)` after the reprojection policy. -/
def reprojectStage (g : GeoFrame) (targetEpsg sourceEpsg : Option Int) :
    GeoFrame × Option Int :=
  if truthyEpsg targetEpsg && truthyEpsg sourceEpsg &&
      decide (targetEpsg ≠ sourceEpsg) then
    (reprojectGeodataframe g (sourceEpsg.getD 0) (targetEpsg.getD 0), targetEpsg)
  else if truthyEpsg sourceEpsg && !truthyEpsg targetEpsg then
    (match g.crs with
     | none => setCrs g (sourceEpsg.getD 0)
     | some _ => g,
     sourceEpsg)
  else (g, targetEpsg)

lemma reprojectGeodataframe_eq (g : GeoFrame) (s t : Int) :
    reprojectGeodataframe g s t = ⟨some t, g.transforms ++ [(some s, t)]⟩ := by
  unfold reprojectGeodataframe toCrs setCrs
  cases hc : g.crs with
  | none => rfl
  | some c =>
    by_cases hcs : c ≠ s
    · simp [hcs]
    · push_neg at hcs
      simp [hcs, hc]

/-- **C8 (amended).** The reprojection stage behaves as follows. When a
(truthy) target EPSG is given, a source EPSG was detected, and they differ,
the dataset is transformed from the source to the target (its CRS becomes
the target and one `(source, target)` transformation is recorded) and the
target is the effective target. When the target is null and a source is
known, no coordinate transformation happens, the source becomes the
effective target, and the dataset's CRS is set to the source **only if it
was unset — an already-set CRS is kept as is**, contrary to the claim's
unconditional pinning. When both are null the dataset is returned unchanged
(its CRS stays whatever it was, unspecified only when it was already unset)
with a null effective target. -/
theorem reprojection_stage_policy (g : GeoFrame) (targetE sourceE : Option Int) :
    (∀ t s, targetE = some t → sourceE = some s → t ≠ 0 → s ≠ 0 → t ≠ s →
      reprojectStage g targetE sourceE =
        (⟨some t, g.transforms ++ [(some s, t)]⟩, some t)) ∧
    (∀ s, targetE = none → sourceE = some s → s ≠ 0 →
      (reprojectStage g targetE sourceE).2 = some s ∧
      (reprojectStage g targetE sourceE).1.transforms = g.transforms ∧
      (g.crs = none → (reprojectStage g targetE sourceE).1.crs = some s) ∧
      (∀ c, g.crs = some c → (reprojectStage g targetE sourceE).1.crs = some c)) ∧
    (targetE = none → sourceE = none →
      reprojectStage g targetE sourceE = (g, none)) := by
  refine ⟨?_, ?_, ?_⟩
  · intro t s ht hs ht0 hs0 hts
    subst ht hs
    have hcond : (truthyEpsg (some t) && truthyEpsg (some s) &&
        decide ((some t : Option Int) ≠ some s)) = true := by
      simp [truthyEpsg, ht0, hs0, hts]
    unfold reprojectStage
    rw [if_pos hcond]
    rw [show ((some s : Option Int).getD 0) = s from rfl,
      show ((some t : Option Int).getD 0) = t from rfl]
    rw [reprojectGeodataframe_eq]
  · intro s ht hs hs0
    subst ht hs
    have hcond1 : (truthyEpsg (none : Option Int) && truthyEpsg (some s) &&
        decide ((none : Option Int) ≠ some s)) = false := by
      simp [truthyEpsg]
    have hcond2 : (truthyEpsg (some s) && !truthyEpsg (none : Option Int)) = true := by
      simp [truthyEpsg, hs0]
    unfold reprojectStage
    rw [if_neg (by rw [hcond1]; exact Bool.false_ne_true), if_pos hcond2]
    cases hc : g.crs with
    | none =>
      refine ⟨rfl, rfl, fun _ => rfl, ?_⟩
      intro c hcc
      exact Option.noConfusion hcc
    | some c =>
      refine ⟨rfl, rfl, ?_, ?_⟩
      · intro hcon
        exact Option.noConfusion hcon
      · intro c2 hc2
        injection hc2 with h3
        show g.crs = some c2
        rw [hc, h3]
  · intro ht hs
    subst ht hs
    unfold reprojectStage
    rw [if_neg (by simp [truthyEpsg]), if_neg (by simp [truthyEpsg])]

/-- **C8 counterexample.** A dataset whose CRS is already set (to 9999)
with a detected source of 4326 and no requested target keeps CRS 9999: it is
**not** pinned to the source, though the source does become the effective
target. With both EPSG null the dataset is likewise emitted with its
existing CRS 9999 rather than an unspecified one. -/
theorem reprojection_stage_pin_cex :
    (reprojectStage ⟨some 9999, []⟩ none (some 4326)).1.crs = some 9999 ∧
    (reprojectStage ⟨some 9999, []⟩ none (some 4326)).1.crs ≠ some 4326 ∧
    (reprojectStage ⟨some 9999, []⟩ none (some 4326)).2 = some 4326 ∧
    (reprojectStage ⟨some 9999, []⟩ none none).1.crs = some 9999 := by
  refine ⟨rfl, by decide, rfl, rfl⟩

/-! ## CSV write frame effect (`services/gdal_processor.py`)

`_write_file` (lines 166-193) receives the pipeline's dataframe; in the CSV
branch it assigns `gdf["latitude"]` and `gdf["longitude"]` on that object
itself (no copy), and step 9 of `process` then builds the quality report
from the same object. Only the column labels matter here: a pandas column
assignment appends a new label unless it already exists.
-/

def setColumn (cols : List String) (name : String) : List String :=
  if name ∈ cols then cols else cols ++ [name]

/-- The column labels after `_write_file`: only the CSV branch touches the
dataframe. -/
def writeFileColumns (cols : List String) (outputFormat : String) : List String :=
  if outputFormat = "CSV" then setColumn (setColumn cols "latitude") "longitude"
  else cols

/-- The column-derived report fields of step 9:
`columns_output = len(gdf_after.columns) - 1` (quality_reporter.py line 64)
and the attribute section's column list (line 91). -/
structure ReportColumnView where
  columns_output : Int
  attr_columns : List String
deriving DecidableEq, Repr

/-- Steps 7-9 of `GDALProcessor.process` restricted to column labels: write
the file (mutating the dataframe), then build the report from the same
dataframe. -/
def processWriteThenReport (cols : List String) (outputFormat : String) :
    List String × ReportColumnView :=
  let colsAfter := writeFileColumns cols outputFormat
  (colsAfter, ⟨(colsAfter.length : Int) - 1, colsAfter.filter (fun c => c ≠ "geometry")⟩)

/-- **C10.** For a CSV output the write stage appends `latitude` and
`longitude` to the in-memory dataset itself, so the quality report generated
afterwards on the same dataset counts both extra columns in
`columns_output` and lists them in the attribute section; for every other
output format the write stage leaves the columns unchanged. (Stated for
datasets not already carrying those two labels.) -/
theorem csv_write_mutates_report_columns (cols : List String) (fmt : String)
    (hlat : "latitude" ∉ cols) (hlon : "longitude" ∉ cols) :
    (fmt = "CSV" →
      (processWriteThenReport cols fmt).1 = cols ++ ["latitude", "longitude"] ∧
      (processWriteThenReport cols fmt).2.columns_output = (cols.length : Int) + 1 ∧
      "latitude" ∈ (processWriteThenReport cols fmt).2.attr_columns ∧
      "longitude" ∈ (processWriteThenReport cols fmt).2.attr_columns) ∧
    (fmt ≠ "CSV" →
      (processWriteThenReport cols fmt).1 = cols ∧
      (processWriteThenReport cols fmt).2.columns_output = (cols.length : Int) - 1) := by
  constructor
  · intro hf
    subst hf
    have h1 : setColumn cols "latitude" = cols ++ ["latitude"] := by
      unfold setColumn
      rw [if_neg hlat]
    have h2 : setColumn (cols ++ ["latitude"]) "longitude" = cols ++ ["latitude", "longitude"] := by
      unfold setColumn
      rw [if_neg (by
        intro hmem
        rcases List.mem_append.mp hmem with h | h
        · exact hlon h
        · exact absurd (List.mem_singleton.mp h) (by decide))]
      rw [List.append_assoc]
      rfl
    have hw : writeFileColumns cols "CSV" = cols ++ ["latitude", "longitude"] := by
      unfold writeFileColumns
      rw [if_pos rfl, h1, h2]
    refine ⟨hw, ?_, ?_, ?_⟩
    · show (((writeFileColumns cols "CSV").length : Int) - 1) = (cols.length : Int) + 1
      rw [hw, List.length_append]
      simp only [List.length_cons, List.length_nil]
      push_cast
      omega
    · show "latitude" ∈ (writeFileColumns cols "CSV").filter (fun c => c ≠ "geometry")
      rw [hw]
      apply List.mem_filter.mpr
      exact ⟨List.mem_append.mpr (Or.inr (by decide)), by decide⟩
    · show "longitude" ∈ (writeFileColumns cols "CSV").filter (fun c => c ≠ "geometry")
      rw [hw]
      apply List.mem_filter.mpr
      exact ⟨List.mem_append.mpr (Or.inr (by decide)), by decide⟩
  · intro hf
    have hw : writeFileColumns cols fmt = cols := by
      unfold writeFileColumns
      rw [if_neg hf]
    exact ⟨hw, by
      show (((writeFileColumns cols fmt).length : Int) - 1) = (cols.length : Int) - 1
      rw [hw]⟩

/-- **C10 witness**: dataset `["geometry", "nom"]` written as CSV reports
`columns_output = 3` (the two centroid columns counted). -/
theorem csv_write_mutates_report_columns_witness :
    (processWriteThenReport ["geometry", "nom"] "CSV").2.columns_output = 3 := by
  have h := csv_write_mutates_report_columns ["geometry", "nom"] "CSV" (by decide) (by decide)
  have h2 := (h.1 rfl).2.1
  rw [h2]
  decide

end SigReseau
